import Mathlib

/-!
Verification of the speedster measurement orchestration engine
(`pkg/speedtest`, multi-measurement version) against its specification.

The Go code is shallowly embedded: `time.Duration` values become `Int`
(nanoseconds), `float64` throughput values become `Rat`, fallible calls
return `Except String`, and the external collaborators (server catalog,
`FindServer`, and the download/upload measurement primitive) are passed in
as an explicit environment record.  Warnings printed to stderr are
collected in a `List String`.
-/

namespace Speedster

/-- `speedtest.Server` (external catalog library): the fields the engine
reads.  `latency` and `jitter` are `time.Duration` nanoseconds. -/
structure GoServer where
  id : String
  name : String
  country : String
  distance : Rat
  latency : Int
  jitter : Int
  deriving DecidableEq

/-- `ServerInfo`: snapshot of a server's identity fields stored in a
`Result`. -/
structure ServerInfo where
  id : String
  name : String
  country : String
  distance : Rat
  deriving DecidableEq

/-- `MeasurementStrategySingleServer`: the Go constant `"single-server"`.
In Go, `MeasurementStrategy` is a string type, so strategies are embedded
as plain strings. -/
def MeasurementStrategySingleServer : String := "single-server"

/-- `MeasurementStrategyMultiServer`: the Go constant `"multi-server"`. -/
def MeasurementStrategyMultiServer : String := "multi-server"

/-- `MeasurementStrategy.Valid`: the strategy is one of the two enum
constants. -/
def strategyValid (s : String) : Bool :=
  s == MeasurementStrategySingleServer || s == MeasurementStrategyMultiServer

/-- `Config`: the run configuration.  `Timeout`, `ConcurrentStreams` and
`TestDuration` are passed through opaquely to the external measurement
primitive and never read by the orchestration logic, so they are omitted
from the embedding.  `MeasurementCount` is a `Nat`: `LoadConfig` clamps the
Go `int` to at least 1 before constructing the `Config`. -/
structure Config where
  ServerIDs : List String
  SkipDownload : Bool
  SkipUpload : Bool
  MeasurementCount : Nat
  MeasurementStrategy : String
  deriving DecidableEq

/-- `Result`: one measurement round's outcome.  `Duration` is wall-clock
time, which is not modelled and recorded as 0. -/
structure Result where
  Server : ServerInfo
  DownloadMbps : Rat
  UploadMbps : Rat
  Duration : Int
  Latency : Int
  Jitter : Int
  MeasurementIndex : Nat
  deriving DecidableEq

/-- Go `unicode.IsSpace` on the characters `strings.TrimSpace` can meet in
a server-ID list (ASCII whitespace plus the Latin-1 spaces). -/
def goIsSpace (c : Char) : Bool :=
  c = ' ' || c = '\t' || c = '\n' || c = Char.ofNat 11 || c = Char.ofNat 12 ||
    c = '\r' || c = Char.ofNat 0x85 || c = Char.ofNat 0xA0

/-- `strings.TrimSpace`: drop leading and trailing whitespace. -/
def goTrimSpace (s : String) : String :=
  String.mk (((s.data.dropWhile goIsSpace).reverse.dropWhile goIsSpace).reverse)

/-- `strconv.Atoi`: optional sign followed by at least one decimal digit.
(The int64 range check is not modelled; the engine only feeds it short
server-ID strings.) -/
def goAtoi (s : String) : Option Int :=
  let withSign : Int × List Char :=
    match s.data with
    | '-' :: rest => (-1, rest)
    | '+' :: rest => (1, rest)
    | cs => (1, cs)
  match withSign with
  | (sign, ds) =>
    if ds = [] then none
    else if ds.all (fun c => c.isDigit) then
      some (sign * (ds.foldl (fun acc c => acc * 10 + (c.toNat - '0'.toNat)) 0 : Nat))
    else none

/-- `getEnv`: an environment variable is modelled as its raw string value,
with `""` meaning unset (exactly `os.Getenv`'s behaviour). -/
def getEnv (value : String) (defaultValue : String) : String :=
  if value ≠ "" then value else defaultValue

/-- `getEnvInt`: parse the variable with `strconv.Atoi`, falling back to
the default when unset or unparsable. -/
def getEnvInt (value : String) (defaultValue : Int) : Int :=
  if value ≠ "" then
    match goAtoi value with
    | some i => i
    | none => defaultValue
  else defaultValue

/-- `strconv.ParseBool`. -/
def goParseBool (s : String) : Option Bool :=
  if s ∈ ["1", "t", "T", "TRUE", "true", "True"] then some true
  else if s ∈ ["0", "f", "F", "FALSE", "false", "False"] then some false
  else none

/-- `getEnvBool`. -/
def getEnvBool (value : String) (defaultValue : Bool) : Bool :=
  if value ≠ "" then
    match goParseBool value with
    | some b => b
    | none => defaultValue
  else defaultValue

/-- `strings.Split(s, ",")`: split on every comma (like Go, an empty
input yields one empty piece — the caller special-cases `""` first). -/
def goSplitComma (s : String) : List String :=
  (s.data.splitOn ',').map fun cs => String.mk cs

/-- `parseServerIDs`: split a comma-separated list, trim whitespace, drop
entries that are empty after trimming. -/
def parseServerIDs (serverIDStr : String) : List String :=
  if serverIDStr = "" then []
  else
    let parts := goSplitComma serverIDStr
    parts.foldl
      (fun acc part =>
        let trimmed := goTrimSpace part
        if trimmed ≠ "" then acc ++ [trimmed] else acc)
      []

/-- `validateServerIDs`: cardinality check of the server-ID list against
the strategy.  Returns the error message, or `none` when valid. -/
def validateServerIDs (serverIDs : List String) (strategy : String)
    (measurementCount : Nat) : Option String :=
  let idCount := serverIDs.length
  if strategy = MeasurementStrategySingleServer then
    if idCount > 1 then
      some "in single-server mode, you can only specify 0 or 1 server ID"
    else none
  else if strategy = MeasurementStrategyMultiServer then
    if idCount ≠ 0 ∧ idCount ≠ measurementCount then
      some "in multi-server mode, you must provide exactly measurementCount server IDs or none"
    else none
  else none

/-- The warning `LoadConfig` prints for an unrecognized strategy. -/
def invalidStrategyWarning (s : String) : String :=
  "Warning: Invalid measurement strategy " ++ s ++ ", defaulting to single-server"

/-- `LoadConfig`'s measurement-count resolution: parse the variable
(default 1) and clamp values below 1 up to 1. -/
def resolvedMeasurementCount (envMeasurementCount : String) : Int :=
  let m := getEnvInt envMeasurementCount 1
  if m < 1 then 1 else m

/-- `LoadConfig`'s strategy resolution: parse the variable (default
single-server); an unrecognized value falls back to single-server with a
warning. -/
def resolvedStrategy (envStrategy : String) : String × List String :=
  let strategy0 := getEnv envStrategy MeasurementStrategySingleServer
  if strategyValid strategy0 then (strategy0, [])
  else (MeasurementStrategySingleServer, [invalidStrategyWarning strategy0])

/-- `LoadConfig`, on the raw environment-variable values it reads.
`os.Exit(1)` on a validation error is modelled as `Except.error`; the
function touches no network.  The returned list collects warnings printed
to stderr. -/
def loadConfig (envServerID envMeasurementCount envStrategy envSkipDownload
    envSkipUpload : String) : Except String (Config × List String) :=
  let measurementCount := resolvedMeasurementCount envMeasurementCount
  let sw := resolvedStrategy envStrategy
  let serverIDs := parseServerIDs (getEnv envServerID "")
  match validateServerIDs serverIDs sw.1 measurementCount.toNat with
  | some e => .error e
  | none =>
    .ok ({ ServerIDs := serverIDs,
           SkipDownload := getEnvBool envSkipDownload false,
           SkipUpload := getEnvBool envSkipUpload false,
           MeasurementCount := measurementCount.toNat,
           MeasurementStrategy := sw.1 },
         sw.2)

/-- The external world a run interacts with: the catalog fetch, the
catalog library's `FindServer`, and the measurement primitive.  The
primitive is stateful network code, so its outcome is determinized as a
function of the (0-based) round number and the target server. -/
structure Env where
  fetchServers : Except String (List GoServer)
  findServer : List Int → Except String (List GoServer)
  download : Nat → GoServer → Except String Rat
  upload : Nat → GoServer → Except String Rat

/-- The non-strict latency order on servers, used to state sortedness of
the selection (`a` comes no later than `b` in ascending latency). -/
def latLe (a b : GoServer) : Prop := a.latency ≤ b.latency

/-! ### Go's `sort.Slice` (pdqsort)

`selectServers` sorts with `sort.Slice(targets, func(i, j int) bool {
return targets[i].Latency < targets[j].Latency })`.  Go's `sort.Slice`
(since Go 1.19; the repository builds with Go 1.25) runs pattern-defeating
quicksort (`pdqsort_func` in `sort/zsortfunc.go`) with
`limit = bits.Len(uint(length))`, falling back to plain insertion sort for
ranges of at most 12 elements and to heapsort when `limit` is exhausted.
It is documented as not stable.  The port below mirrors `sort/zsortfunc.go`
function by function on a `List GoServer` state (Go's in-place slice
mutation becomes state passing; every Go `for` loop becomes a
fuel-bounded recursion whose fuel is large enough that it never runs out
on the loop's real iteration counts). -/

/-- `data.Less(i, j)` for the `selectServers` comparator: strict latency
order on the current list state (out-of-range reads, which Go would panic
on and which never occur in real executions, return `false`). -/
def goLess (l : List GoServer) (i j : Nat) : Bool :=
  match l[i]?, l[j]? with
  | some x, some y => x.latency < y.latency
  | _, _ => false

/-- `data.Swap(i, j)` on the list state (no-op out of range, like the
reads). -/
def goSwap (l : List GoServer) (i j : Nat) : List GoServer :=
  match l[i]?, l[j]? with
  | some x, some y => (l.set i y).set j x
  | _, _ => l

/-- `math/bits.Len` (number of bits of `n`), fuel-bounded. -/
def bitsLenAux : Nat → Nat → Nat
  | 0, _ => 0
  | fuel+1, n => if n = 0 then 0 else bitsLenAux fuel (n / 2) + 1

/-- `math/bits.Len`. -/
def bitsLen (n : Nat) : Nat := bitsLenAux n n

/-- The inner shifting loop of `insertionSort_func`: from position `j`
downward, swap while `j > a` and `data.Less(j, j-1)`.  The first argument
is `a`, the second the current `j`. -/
def insertionSortInner (a : Nat) : Nat → List GoServer → List GoServer
  | 0, l => l
  | j+1, l =>
    if a < j + 1 ∧ goLess l (j+1) j then
      insertionSortInner a j (goSwap l (j+1) j)
    else l

/-- The outer loop of `insertionSort_func` over `i = a+1 .. b-1`. -/
def insertionSortLoop (a b : Nat) : Nat → Nat → List GoServer → List GoServer
  | 0, _, l => l
  | fuel+1, i, l =>
    if i < b then insertionSortLoop a b fuel (i+1) (insertionSortInner a i l)
    else l

/-- `insertionSort_func(data, a, b)`: sort `data[a:b]` by insertion
sort. -/
def insertionSortFunc (l : List GoServer) (a b : Nat) : List GoServer :=
  insertionSortLoop a b b (a+1) l

/-- The loop of `siftDown_func`: restore the heap property below `root`
inside `data[first : first+hi]`. -/
def siftDownLoop (hi first : Nat) : Nat → Nat → List GoServer → List GoServer
  | 0, _, l => l
  | fuel+1, root, l =>
    let child := 2*root + 1
    if child ≥ hi then l
    else
      let child :=
        if child + 1 < hi ∧ goLess l (first+child) (first+child+1) then child + 1
        else child
      if !goLess l (first+root) (first+child) then l
      else siftDownLoop hi first fuel child (goSwap l (first+root) (first+child))

/-- `siftDown_func(data, lo, hi, first)`. -/
def siftDownFunc (l : List GoServer) (lo hi first : Nat) : List GoServer :=
  siftDownLoop hi first hi lo l

/-- The heap-building loop of `heapSort_func`: `siftDown` at
`i = (hi-1)/2, ..., 0` (the argument counts `i+1`). -/
def heapSortBuild (hi first : Nat) : Nat → List GoServer → List GoServer
  | 0, l => l
  | i+1, l => heapSortBuild hi first i (siftDownFunc l i hi first)

/-- The pop loop of `heapSort_func`: for `i = hi-1, ..., 0`, swap the root
to position `i` and sift down (the argument counts `i+1`). -/
def heapSortPop (first : Nat) : Nat → List GoServer → List GoServer
  | 0, l => l
  | i+1, l => heapSortPop first i (siftDownFunc (goSwap l first (first+i)) 0 i first)

/-- `heapSort_func(data, a, b)`. -/
def heapSortFunc (l : List GoServer) (a b : Nat) : List GoServer :=
  let first := a
  let hi := b - a
  heapSortPop first hi (heapSortBuild hi first ((hi - 1) / 2 + 1) l)

/-- `sortedHint` of `choosePivot_func`. -/
inductive SortedHint where
  | increasing
  | decreasing
  | unknown
  deriving DecidableEq

/-- `order2_func(data, a, b, &swaps)`: returns the two indices in
value-order, counting a swap when they were reversed. -/
def order2Func (l : List GoServer) (a b swaps : Nat) : Nat × Nat × Nat :=
  if goLess l b a then (b, a, swaps + 1) else (a, b, swaps)

/-- `median_func(data, a, b, c, &swaps)`: index of the median of the three
elements. -/
def medianFunc (l : List GoServer) (a b c swaps : Nat) : Nat × Nat :=
  match order2Func l a b swaps with
  | (a1, b1, s1) =>
    match order2Func l b1 c s1 with
    | (b2, _, s2) =>
      match order2Func l a1 b2 s2 with
      | (_, b3, s3) => (b3, s3)

/-- `medianAdjacent_func(data, a, &swaps)`: median of
`data[a-1], data[a], data[a+1]`. -/
def medianAdjacentFunc (l : List GoServer) (a swaps : Nat) : Nat × Nat :=
  medianFunc l (a-1) a (a+1) swaps

/-- `choosePivot_func(data, a, b)`: static pivot below 8 elements,
median-of-three up to 49, Tukey ninther from 50, with the sortedness hint
derived from the swap count. -/
def choosePivotFunc (l : List GoServer) (a b : Nat) : Nat × SortedHint :=
  let len := b - a
  let i := a + len/4*1
  let j := a + len/4*2
  let k := a + len/4*3
  let js :=
    if len ≥ 8 then
      if len ≥ 50 then
        match medianAdjacentFunc l i 0 with
        | (i2, s1) =>
          match medianAdjacentFunc l j s1 with
          | (j2, s2) =>
            match medianAdjacentFunc l k s2 with
            | (k2, s3) => medianFunc l i2 j2 k2 s3
      else medianFunc l i j k 0
    else (j, 0)
  match js with
  | (j2, swaps) =>
    if swaps = 0 then (j2, SortedHint.increasing)
    else if swaps = 12 then (j2, SortedHint.decreasing)
    else (j2, SortedHint.unknown)

/-- The scanning loop of `partialInsertionSort_func`: advance `i` while
`i < b` and the adjacent pair is in order. -/
def pisAdvance (l : List GoServer) (b : Nat) : Nat → Nat → Nat
  | 0, i => i
  | fuel+1, i => if i < b ∧ !goLess l i (i-1) then pisAdvance l b fuel (i+1) else i

/-- The left-shifting loop of `partialInsertionSort_func`
(`for j := i-1; j >= 1; j--`). -/
def pisShiftLeft : Nat → List GoServer → List GoServer
  | 0, l => l
  | j+1, l => if goLess l (j+1) j then pisShiftLeft j (goSwap l (j+1) j) else l

/-- The right-shifting loop of `partialInsertionSort_func`
(`for j := i+1; j < b; j++`). -/
def pisShiftRight (b : Nat) : Nat → Nat → List GoServer → List GoServer
  | 0, _, l => l
  | fuel+1, j, l =>
    if j < b ∧ goLess l j (j-1) then pisShiftRight b fuel (j+1) (goSwap l j (j-1))
    else l

/-- The outer `maxSteps` loop of `partialInsertionSort_func`. -/
def pisSteps (a b : Nat) : Nat → Nat → List GoServer → List GoServer × Bool
  | 0, _, l => (l, false)
  | steps+1, i, l =>
    let i2 := pisAdvance l b b i
    if i2 = b then (l, true)
    else if b - a < 50 then (l, false)
    else
      let l2 := goSwap l i2 (i2-1)
      let l3 := if i2 - a ≥ 2 then pisShiftLeft (i2-1) l2 else l2
      let l4 := if b - i2 ≥ 2 then pisShiftRight b b (i2+1) l3 else l3
      pisSteps a b steps i2 l4

/-- `partialInsertionSort_func(data, a, b)`: partially sorts, returning
whether the range ended up sorted (it shifts nothing on ranges shorter
than 50). -/
def partialInsertionSortFunc (l : List GoServer) (a b : Nat) :
    List GoServer × Bool :=
  pisSteps a b 5 (a+1) l

/-- One `xorshift.Next()` step (uint64 xorshift 13/7/17). -/
def xorshiftNext (r : Nat) : Nat :=
  let r1 := (r ^^^ (r <<< 13)) % 2^64
  let r2 := (r1 ^^^ (r1 >>> 7)) % 2^64
  (r2 ^^^ (r2 <<< 17)) % 2^64

/-- `breakPatterns_func(data, a, b)`: scatter three elements using the
xorshift generator seeded with the range length (the three loop
iterations are unrolled, threading the generator state). -/
def breakPatternsFunc (l : List GoServer) (a b : Nat) : List GoServer :=
  let length := b - a
  if length ≥ 8 then
    let modulus := 1 <<< bitsLen length
    let idx := a + (length/4)*2 - 1
    let r1 := xorshiftNext length
    let o1 := r1 &&& (modulus - 1)
    let o1 := if o1 ≥ length then o1 - length else o1
    let l1 := goSwap l (idx - 1) (a + o1)
    let r2 := xorshiftNext r1
    let o2 := r2 &&& (modulus - 1)
    let o2 := if o2 ≥ length then o2 - length else o2
    let l2 := goSwap l1 idx (a + o2)
    let r3 := xorshiftNext r2
    let o3 := r3 &&& (modulus - 1)
    let o3 := if o3 ≥ length then o3 - length else o3
    goSwap l2 (idx + 1) (a + o3)
  else l

/-- The loop of `reverseRange_func`. -/
def reverseRangeLoop : Nat → Nat → Nat → List GoServer → List GoServer
  | 0, _, _, l => l
  | fuel+1, i, j, l =>
    if i < j then reverseRangeLoop fuel (i+1) (j-1) (goSwap l i j) else l

/-- `reverseRange_func(data, a, b)`. -/
def reverseRangeFunc (l : List GoServer) (a b : Nat) : List GoServer :=
  reverseRangeLoop b a (b-1) l

/-- `partition_func`'s `i`-advancing scan (`for i <= j && data.Less(i, a)`). -/
def partitionSkipI (l : List GoServer) (a j : Nat) : Nat → Nat → Nat
  | 0, i => i
  | fuel+1, i => if i ≤ j ∧ goLess l i a then partitionSkipI l a j fuel (i+1) else i

/-- `partition_func`'s `j`-retreating scan (`for i <= j && !data.Less(j, a)`). -/
def partitionSkipJ (l : List GoServer) (a i : Nat) : Nat → Nat → Nat
  | 0, j => j
  | fuel+1, j => if i ≤ j ∧ !goLess l j a then partitionSkipJ l a i fuel (j-1) else j

/-- The main swap loop of `partition_func`, returning the final state and
`j` when the pointers cross. -/
def partitionLoop (a b : Nat) : Nat → List GoServer → Nat → Nat → List GoServer × Nat
  | 0, l, _, j => (l, j)
  | fuel+1, l, i, j =>
    let i2 := partitionSkipI l a j b i
    let j2 := partitionSkipJ l a i2 b j
    if i2 > j2 then (l, j2)
    else partitionLoop a b fuel (goSwap l i2 j2) (i2+1) (j2-1)

/-- `partition_func(data, a, b, pivot)`: Hoare partition around
`data[pivot]`; returns the state, the final pivot position, and whether
the range was already partitioned. -/
def partitionFunc (l : List GoServer) (a b pivot : Nat) :
    List GoServer × Nat × Bool :=
  let l1 := goSwap l a pivot
  let i1 := partitionSkipI l1 a (b-1) b (a+1)
  let j1 := partitionSkipJ l1 a i1 b (b-1)
  if i1 > j1 then (goSwap l1 j1 a, j1, true)
  else
    match partitionLoop a b b (goSwap l1 i1 j1) (i1+1) (j1-1) with
    | (l2, jf) => (goSwap l2 jf a, jf, false)

/-- `partitionEqual_func`'s `i`-advancing scan
(`for i <= j && !data.Less(a, i)`). -/
def partitionEqualSkipI (l : List GoServer) (a j : Nat) : Nat → Nat → Nat
  | 0, i => i
  | fuel+1, i =>
    if i ≤ j ∧ !goLess l a i then partitionEqualSkipI l a j fuel (i+1) else i

/-- `partitionEqual_func`'s `j`-retreating scan
(`for i <= j && data.Less(a, j)`). -/
def partitionEqualSkipJ (l : List GoServer) (a i : Nat) : Nat → Nat → Nat
  | 0, j => j
  | fuel+1, j =>
    if i ≤ j ∧ goLess l a j then partitionEqualSkipJ l a i fuel (j-1) else j

/-- The swap loop of `partitionEqual_func`, returning the state and the
final `i`. -/
def partitionEqualLoop (a b : Nat) : Nat → List GoServer → Nat → Nat →
    List GoServer × Nat
  | 0, l, i, _ => (l, i)
  | fuel+1, l, i, j =>
    let i2 := partitionEqualSkipI l a j b i
    let j2 := partitionEqualSkipJ l a i2 b j
    if i2 > j2 then (l, i2)
    else partitionEqualLoop a b fuel (goSwap l i2 j2) (i2+1) (j2-1)

/-- `partitionEqual_func(data, a, b, pivot)`: splits off the elements equal
to the pivot. -/
def partitionEqualFunc (l : List GoServer) (a b pivot : Nat) :
    List GoServer × Nat :=
  partitionEqualLoop a b b (goSwap l a pivot) (a+1) (b-1)

/-- The body of `pdqsort_func`'s `for` loop past its two base-case checks;
`rec` is the continuation for both the recursive call on the shorter side
and the loop's `continue` on the remaining range. -/
def pdqsortStep
    (rec : List GoServer → Nat → Nat → Nat → Bool → Bool → List GoServer)
    (l : List GoServer) (a b limit : Nat)
    (wasBalanced wasPartitioned : Bool) : List GoServer :=
  let length := b - a
  let ll :=
    if !wasBalanced then (breakPatternsFunc l a b, limit - 1) else (l, limit)
  match ll with
  | (l1, limit1) =>
    match choosePivotFunc l1 a b with
    | (pivot0, hint0) =>
      let rev := hint0 == SortedHint.decreasing
      let l2 := if rev then reverseRangeFunc l1 a b else l1
      let pivot := if rev then (b - 1) - (pivot0 - a) else pivot0
      let hint := if rev then SortedHint.increasing else hint0
      let pis :=
        if wasBalanced && wasPartitioned && (hint == SortedHint.increasing) then
          partialInsertionSortFunc l2 a b
        else (l2, false)
      match pis with
      | (l3, done) =>
        if done then l3
        else if decide (0 < a) && !goLess l3 (a-1) pivot then
          match partitionEqualFunc l3 a b pivot with
          | (l4, mid) => rec l4 mid b limit1 wasBalanced wasPartitioned
        else
          match partitionFunc l3 a b pivot with
          | (l4, mid, alreadyPartitioned) =>
            let leftLen := mid - a
            let rightLen := b - mid
            let newBalanced := decide (min leftLen rightLen ≥ length / 8)
            if leftLen < rightLen then
              rec (rec l4 a mid limit1 true true)
                (mid+1) b limit1 newBalanced alreadyPartitioned
            else
              rec (rec l4 (mid+1) b limit1 true true)
                a mid limit1 newBalanced alreadyPartitioned

/-- `pdqsort_func(data, a, b, limit)`.  The Go `for` loop and the
recursive call on the shorter side both consume one unit of fuel; every
iteration shrinks `b - a`, so fuel `length + 1` never runs out. -/
def pdqsortAux : Nat → List GoServer → Nat → Nat → Nat → Bool → Bool →
    List GoServer
  | 0, l, _, _, _, _, _ => l
  | fuel+1, l, a, b, limit, wasBalanced, wasPartitioned =>
    if b - a ≤ 12 then insertionSortFunc l a b
    else if limit = 0 then heapSortFunc l a b
    else pdqsortStep (pdqsortAux fuel) l a b limit wasBalanced wasPartitioned

/-- `sort.Slice(x, less)`: pdqsort over the whole slice with
`limit = bits.Len(uint(length))`. -/
def goSortSlice (l : List GoServer) : List GoServer :=
  pdqsortAux (l.length + 1) l 0 l.length (bitsLen l.length) true true

/-- The `sort.Slice(targets, ...Latency < ...Latency)` call in
`selectServers`. -/
def sortServersByLatency (l : List GoServer) : List GoServer :=
  goSortSlice l

/-- Functional reading of one step of Go's insertion sort: bubbling the
new element left past strictly greater ones places it before the first
strictly greater element of the sorted prefix (after any equal-latency
ones). -/
def goInsert (x : GoServer) : List GoServer → List GoServer
  | [] => [x]
  | y :: ys => if x.latency < y.latency then x :: y :: ys else y :: goInsert x ys

/-- Functional reading of Go's insertion sort (`insertionSort_func` on a
whole slice): fold the elements left to right into a sorted prefix. -/
def goInsertionSortL (l : List GoServer) : List GoServer :=
  l.foldl (fun acc x => goInsert x acc) []

/-- The loop converting `r.config.ServerIDs` to ints with `strconv.Atoi`,
failing on the first unparsable ID. -/
def atoiAll : List String → Except String (List Int)
  | [] => .ok []
  | idStr :: rest =>
    match goAtoi idStr with
    | some id =>
      match atoiAll rest with
      | .ok ids => .ok (id :: ids)
      | .error e => .error e
    | none => .error ("invalid server ID: " ++ idStr)

/-- The warning printed when fewer servers are available than requested
measurements. -/
def shortfallWarning : String :=
  "Warning: Requested more measurements than available servers"

/-- `selectServers`: fetch the catalog, resolve pinned IDs through
`FindServer` (or take the catalog directly, latency-sorted only in
multi-server mode), reject an empty target list, then pick the servers for
the run according to the strategy.  The second component collects the
warnings printed to stderr. -/
def selectServers (cfg : Config) (env : Env) :
    Except String (List GoServer × List String) :=
  match env.fetchServers with
  | .error e => .error ("failed to fetch servers: " ++ e)
  | .ok serverList =>
    let targetsE : Except String (List GoServer) :=
      if cfg.ServerIDs.length > 0 then
        match atoiAll cfg.ServerIDs with
        | .error e => .error e
        | .ok preferredServers =>
          match env.findServer preferredServers with
          | .error e => .error ("failed to find servers: " ++ e)
          | .ok ts => .ok ts
      else
        .ok (if cfg.MeasurementStrategy = MeasurementStrategyMultiServer then
               sortServersByLatency serverList
             else serverList)
    match targetsE with
    | .error e => .error e
    | .ok targets =>
      if targets.length = 0 then .error "no servers found"
      else if cfg.MeasurementStrategy = MeasurementStrategySingleServer then
        .ok (targets.take 1, [])
      else if cfg.MeasurementStrategy = MeasurementStrategyMultiServer then
        if cfg.ServerIDs.length > 0 then .ok (targets, [])
        else if cfg.MeasurementCount > targets.length then
          .ok (targets, [shortfallWarning])
        else .ok (targets.take cfg.MeasurementCount, [])
      else .ok (targets.take 1, [])

/-- The per-round server choice inside `Run`'s measurement loop:
`servers[0]` in single-server mode, otherwise `servers[i]` falling back to
`servers[i%len(servers)]`.  `none` models the nil dereference Go would hit
on an empty list (unreachable: `selectServers` rejects empty target
lists). -/
def serverForRound (cfg : Config) (servers : List GoServer) (i : Nat) :
    Option GoServer :=
  if cfg.MeasurementStrategy = MeasurementStrategySingleServer then servers[0]?
  else if i < servers.length then servers[i]?
  else servers[i % servers.length]?

/-- The effective per-round server plan of a run: which server each of the
`n` rounds targets. -/
def roundPlan (cfg : Config) (servers : List GoServer) (n : Nat) :
    List (Option GoServer) :=
  (List.range n).map (serverForRound cfg servers)

/-- One iteration of `Run`'s measurement loop (round `i`, 0-based):
optional download phase, then optional upload phase, each aborting the
round (and, in `Run`, the whole run) on error.  A skipped phase leaves the
corresponding throughput at its zero value. -/
def runRound (cfg : Config) (env : Env) (servers : List GoServer) (i : Nat) :
    Except String Result :=
  match serverForRound cfg servers i with
  | none => .error "no server for measurement"
  | some server =>
    let downloadE : Except String Rat :=
      if !cfg.SkipDownload then
        match env.download i server with
        | .ok m => .ok m
        | .error e =>
          .error ("download test failed for measurement " ++ toString (i + 1) ++ ": " ++ e)
      else .ok 0
    match downloadE with
    | .error e => .error e
    | .ok downloadMbps =>
      let uploadE : Except String Rat :=
        if !cfg.SkipUpload then
          match env.upload i server with
          | .ok m => .ok m
          | .error e =>
            .error ("upload test failed for measurement " ++ toString (i + 1) ++ ": " ++ e)
        else .ok 0
      match uploadE with
      | .error e => .error e
      | .ok uploadMbps =>
        .ok { Server := { id := server.id, name := server.name,
                          country := server.country, distance := server.distance },
              DownloadMbps := downloadMbps,
              UploadMbps := uploadMbps,
              Duration := 0,
              Latency := server.latency,
              Jitter := server.jitter,
              MeasurementIndex := i + 1 }

/-- `Run`'s measurement loop over a list of round numbers: results are
appended in round order; the first failing round aborts the whole run,
discarding every earlier result. -/
def runRounds (cfg : Config) (env : Env) (servers : List GoServer) :
    List Nat → Except String (List Result)
  | [] => .ok []
  | i :: rest =>
    match runRound cfg env servers i with
    | .error e => .error e
    | .ok result =>
      match runRounds cfg env servers rest with
      | .error e => .error e
      | .ok results => .ok (result :: results)

/-- `Runner.Run`: select servers, then execute `MeasurementCount`
sequential rounds.  Returns the full ordered result list, or the first
error (with no results, matching Go's `return nil, err`). -/
def Run (cfg : Config) (env : Env) : Except String (List Result) :=
  match selectServers cfg env with
  | .error e => .error ("server selection failed: " ++ e)
  | .ok sw => runRounds cfg env sw.1 (List.range cfg.MeasurementCount)

/-- Decidable test for a failed phase outcome. -/
def isError : Except String Rat → Bool
  | .error _ => true
  | .ok _ => false

/-- Round `i` of a run has a failing phase: its target server exists and
either the download phase is executed and errors, or the upload phase is
executed and errors. -/
def roundPhaseFails (cfg : Config) (env : Env) (servers : List GoServer)
    (i : Nat) : Bool :=
  match serverForRound cfg servers i with
  | none => false
  | some s =>
    (!cfg.SkipDownload && isError (env.download i s)) ||
      (!cfg.SkipUpload && isError (env.upload i s))

/-- Modelled from the spec: summary statistics of one throughput series
(§4.4 names arithmetic mean, minimum, maximum; no such Result Aggregator
appears in the repository sources). -/
structure SeriesStats where
  mean : Rat
  min : Rat
  max : Rat
  deriving DecidableEq

/-- Modelled from the spec: per-run statistics over the download and
upload series independently. -/
structure Statistics where
  download : SeriesStats
  upload : SeriesStats
  deriving DecidableEq

/-- Modelled from the spec: mean, minimum and maximum of a series. -/
def seriesStats (xs : List Rat) : SeriesStats :=
  match xs with
  | [] => { mean := 0, min := 0, max := 0 }
  | x :: rest =>
    { mean := (x :: rest).sum / (x :: rest).length,
      min := rest.foldl Min.min x,
      max := rest.foldl Max.max x }

/-- Modelled from the spec: the Result Aggregator's `summarize`, a pure
function over the download and upload series of a run outcome. -/
def summarize (outcome : List Result) : Statistics :=
  { download := seriesStats (outcome.map (fun r => r.DownloadMbps)),
    upload := seriesStats (outcome.map (fun r => r.UploadMbps)) }

/-- Modelled from the spec: the orchestrator invokes `summarize` only when
`measurementCount > 1`; for a single measurement the aggregation step is
skipped entirely. -/
def reportSummary (cfg : Config) (outcome : List Result) : Option Statistics :=
  if cfg.MeasurementCount > 1 then some (summarize outcome) else none

/-! ## Helper lemmas -/

theorem resolvedMeasurementCount_pos (envMeasurementCount : String) :
    1 ≤ (resolvedMeasurementCount envMeasurementCount).toNat := by
  unfold resolvedMeasurementCount
  dsimp only
  split
  · rfl
  · omega

theorem foldl_collect (l : List String) (acc : List String) :
    l.foldl
        (fun acc part =>
          let trimmed := goTrimSpace part
          if trimmed ≠ "" then acc ++ [trimmed] else acc)
        acc =
      acc ++ (l.map goTrimSpace).filter (fun t => t != "") := by
  induction l generalizing acc with
  | nil => simp
  | cons p rest ih =>
    rw [List.foldl_cons]
    simp only [ne_eq, ite_not] at ih ⊢
    by_cases hp : goTrimSpace p = ""
    · rw [if_pos hp, ih, List.map_cons, List.filter_cons]
      simp [hp]
    · rw [if_neg hp, ih, List.map_cons, List.filter_cons]
      simp [hp, List.append_assoc]

/-! ## Claim theorems -/

/-- C7: `parseServerIDs` splits the raw string on commas, trims whitespace
from each piece, drops pieces that are empty after trimming, preserves the
relative order of the rest, and keeps duplicates (it is exactly the
trim-then-filter image of the comma split). -/
theorem parseServerIDs_spec (s : String) :
    parseServerIDs s = ((goSplitComma s).map goTrimSpace).filter (fun t => t != "") := by
  unfold parseServerIDs
  by_cases hs : s = ""
  · subst hs; decide
  · simp only [hs, if_neg, not_false_eq_true]
    simpa using foldl_collect (goSplitComma s) []

/-- C5: configuration validation fails exactly when single-server mode has
more than one pinned ID, or multi-server mode has a non-zero number of
pinned IDs different from the measurement count; every other cardinality
passes.  In particular `resolve(["1","2"], 2, "single-server")` is a fatal
configuration error (raised by `loadConfig`, which performs no network
activity). -/
theorem validate_cardinality :
    (∀ (ids : List String) (strategy : String) (count : Nat),
        validateServerIDs ids strategy count ≠ none ↔
          ((strategy = MeasurementStrategySingleServer ∧ 1 < ids.length) ∨
            (strategy = MeasurementStrategyMultiServer ∧
              ids.length ≠ 0 ∧ ids.length ≠ count))) ∧
      ∃ e, loadConfig "1,2" "2" "single-server" "" "" = .error e := by
  constructor
  · intro ids strategy count
    unfold validateServerIDs MeasurementStrategySingleServer MeasurementStrategyMultiServer
    by_cases h1 : strategy = "single-server"
    · subst h1
      simp only [if_pos rfl]
      split_ifs with h3 <;> simp_all
    · by_cases h2 : strategy = "multi-server"
      · subst h2
        rw [if_neg (by decide), if_pos rfl]
        split_ifs with h3 <;> simp_all
      · simp [h1, h2]
  · exact ⟨_, rfl⟩

/-- C10: the measurement count in every `Config` produced by `loadConfig`
is at least 1, and a raw count of zero or less is silently clamped: the
whole load behaves exactly as if the variable had been `"1"`. -/
theorem measurementCount_clamped :
    (∀ envID envCount envStrat envSkipD envSkipU cfg w,
        loadConfig envID envCount envStrat envSkipD envSkipU = .ok (cfg, w) →
          1 ≤ cfg.MeasurementCount) ∧
      (∀ (envCount : String) (k : Int), goAtoi envCount = some k → k < 1 →
        ∀ envID envStrat envSkipD envSkipU,
          loadConfig envID envCount envStrat envSkipD envSkipU =
            loadConfig envID "1" envStrat envSkipD envSkipU) := by
  constructor
  · intro envID envCount envStrat envSkipD envSkipU cfg w h
    simp only [loadConfig] at h
    split at h
    · exact absurd h (by simp)
    · simp only [Except.ok.injEq, Prod.mk.injEq] at h
      obtain ⟨hc, -⟩ := h
      subst hc
      exact resolvedMeasurementCount_pos envCount
  · intro envCount k hk hk1 envID envStrat envSkipD envSkipU
    have hne : envCount ≠ "" := by
      intro h0
      rw [h0, show goAtoi "" = none from rfl] at hk
      exact Option.noConfusion hk
    have hgetenv : getEnvInt envCount 1 = k := by
      unfold getEnvInt
      rw [if_pos hne, hk]
    have hcount : resolvedMeasurementCount envCount = 1 := by
      simp only [resolvedMeasurementCount, hgetenv]
      rw [if_pos hk1]
    have hcount1 : resolvedMeasurementCount "1" = 1 := by decide
    unfold loadConfig
    rw [hcount, hcount1]

theorem resolvedStrategy_invalid {s : String} (hvalid : strategyValid s = false)
    (hne : s ≠ "") :
    resolvedStrategy s = (MeasurementStrategySingleServer, [invalidStrategyWarning s]) := by
  unfold resolvedStrategy getEnv
  rw [if_pos hne]
  simp [hvalid]

/-- C6: an unrecognized strategy string is not fatal: `loadConfig` falls
back to single-server and emits a warning.  With no pinned server IDs
(as in `resolve([], 1, "invalid-strategy")`) the load always succeeds, and
whenever it succeeds the resulting config carries the single-server
strategy together with the fallback warning. -/
theorem invalid_strategy_fallback {s : String}
    (hvalid : strategyValid s = false) (hne : s ≠ "") :
    (∀ envCount envSkipD envSkipU, ∃ cfg,
        loadConfig "" envCount s envSkipD envSkipU =
            .ok (cfg, [invalidStrategyWarning s]) ∧
          cfg.MeasurementStrategy = MeasurementStrategySingleServer) ∧
      (∀ envID envCount envSkipD envSkipU cfg w,
        loadConfig envID envCount s envSkipD envSkipU = .ok (cfg, w) →
          cfg.MeasurementStrategy = MeasurementStrategySingleServer ∧
            w = [invalidStrategyWarning s]) := by
  have hres := resolvedStrategy_invalid hvalid hne
  constructor
  · intro envCount envSkipD envSkipU
    refine ⟨{ ServerIDs := [], SkipDownload := getEnvBool envSkipD false,
              SkipUpload := getEnvBool envSkipU false,
              MeasurementCount := (resolvedMeasurementCount envCount).toNat,
              MeasurementStrategy := MeasurementStrategySingleServer }, ?_, rfl⟩
    simp only [loadConfig, hres]
    rfl
  · intro envID envCount envSkipD envSkipU cfg w h
    simp only [loadConfig, hres] at h
    split at h
    · exact absurd h (by simp)
    · simp only [Except.ok.injEq, Prod.mk.injEq] at h
      obtain ⟨hc, hw⟩ := h
      subst hc
      exact ⟨rfl, hw.symm⟩

/-- C6 witness: `resolve([], 1, "invalid-strategy")` succeeds with the
single-server strategy and the fallback warning. -/
theorem invalid_strategy_fallback_witness :
    ∃ cfg, loadConfig "" "1" "invalid-strategy" "" "" =
        .ok (cfg, [invalidStrategyWarning "invalid-strategy"]) ∧
      cfg.MeasurementStrategy = MeasurementStrategySingleServer :=
  (invalid_strategy_fallback (by decide) (by decide)).1 "1" "" ""

/-- A three-round outcome with download series `[10, 20, 30]` and upload
series `[15, 25, 35]`. -/
def exampleOutcome : List Result :=
  ([(10, 15), (20, 25), (30, 35)] : List (Rat × Rat)).map fun d =>
    { Server := { id := "1", name := "A", country := "DE", distance := 0 },
      DownloadMbps := d.1, UploadMbps := d.2, Duration := 0, Latency := 0,
      Jitter := 0, MeasurementIndex := 1 }

/-- C9: `summarize` computes exactly the arithmetic mean, minimum and
maximum of the download and upload series independently (downloads
`[10, 20, 30]` yield mean 20, min 10, max 30), and for a measurement count
of 1 the aggregation step is never invoked, whatever the outcome. -/
theorem summarize_spec :
    (summarize exampleOutcome).download = ⟨20, 10, 30⟩ ∧
      (summarize exampleOutcome).upload = ⟨25, 15, 35⟩ ∧
      ∀ (ids : List String) (sd su : Bool) (strat : String) (outcome : List Result),
        reportSummary ⟨ids, sd, su, 1, strat⟩ outcome = none := by
  have hdl : (exampleOutcome.map fun r => r.DownloadMbps) = [10, 20, 30] := rfl
  have hul : (exampleOutcome.map fun r => r.UploadMbps) = [15, 25, 35] := rfl
  refine ⟨?_, ?_, fun ids sd su strat outcome => rfl⟩
  · simp only [summarize, hdl, seriesStats, List.sum_cons, List.sum_nil,
      List.length_cons, List.length_nil, List.foldl_cons, List.foldl_nil,
      SeriesStats.mk.injEq]
    norm_num [min_def, max_def]
  · simp only [summarize, hul, seriesStats, List.sum_cons, List.sum_nil,
      List.length_cons, List.length_nil, List.foldl_cons, List.foldl_nil,
      SeriesStats.mk.injEq]
    norm_num [min_def, max_def]

theorem runRound_error_of_phaseFails {cfg : Config} {env : Env}
    {servers : List GoServer} {i : Nat}
    (h : roundPhaseFails cfg env servers i = true) :
    ∃ e, runRound cfg env servers i = .error e := by
  unfold roundPhaseFails at h
  unfold runRound
  cases hs : serverForRound cfg servers i with
  | none => rw [hs] at h; exact absurd h (by simp)
  | some s =>
    rw [hs] at h
    simp only [Bool.or_eq_true, Bool.and_eq_true, Bool.not_eq_true'] at h
    rcases h with ⟨hskip, herr⟩ | ⟨hskip, herr⟩
    · cases hd : env.download i s with
      | ok m => rw [hd] at herr; exact absurd herr (by simp [isError])
      | error e =>
        exact ⟨"download test failed for measurement " ++ toString (i + 1) ++ ": " ++ e,
          by simp [hskip, hd]⟩
    · cases hsd : cfg.SkipDownload with
      | true =>
        cases hu : env.upload i s with
        | ok m2 => rw [hu] at herr; exact absurd herr (by simp [isError])
        | error e =>
          exact ⟨"upload test failed for measurement " ++ toString (i + 1) ++ ": " ++ e,
            by simp [hsd, hskip, hu]⟩
      | false =>
        cases hd : env.download i s with
        | error e =>
          exact ⟨"download test failed for measurement " ++ toString (i + 1) ++ ": " ++ e,
            by simp [hsd, hd]⟩
        | ok m =>
          cases hu : env.upload i s with
          | ok m2 => rw [hu] at herr; exact absurd herr (by simp [isError])
          | error e =>
            exact ⟨"upload test failed for measurement " ++ toString (i + 1) ++ ": " ++ e,
              by simp [hsd, hskip, hd, hu]⟩

theorem runRounds_error_of_mem {cfg : Config} {env : Env}
    {servers : List GoServer} {i : Nat} :
    ∀ {is : List Nat}, i ∈ is → roundPhaseFails cfg env servers i = true →
      ∃ e, runRounds cfg env servers is = .error e := by
  intro is hmem hfail
  induction is with
  | nil => cases hmem
  | cons j rest ih =>
    unfold runRounds
    cases hr : runRound cfg env servers j with
    | error e => exact ⟨e, rfl⟩
    | ok result =>
      rcases List.mem_cons.mp hmem with hij | htail
      · subst hij
        obtain ⟨e, he⟩ := runRound_error_of_phaseFails hfail
        rw [hr] at he
        exact absurd he (by simp)
      · obtain ⟨e, he⟩ := ih htail
        rw [he]
        exact ⟨e, rfl⟩

/-- C1: if the download or upload phase of any round of the run fails, the
whole `Run` returns an error and no result list at all — no result from
any prior successful round survives into the outcome. -/
theorem run_fail_fast {cfg : Config} {env : Env} {servers : List GoServer}
    {w : List String} {i : Nat}
    (hsel : selectServers cfg env = .ok (servers, w))
    (hi : i < cfg.MeasurementCount)
    (hfail : roundPhaseFails cfg env servers i = true) :
    (∃ e, Run cfg env = .error e) ∧ ∀ rs, Run cfg env ≠ .ok rs := by
  have hmem : i ∈ List.range cfg.MeasurementCount := List.mem_range.mpr hi
  obtain ⟨e, he⟩ := runRounds_error_of_mem hmem hfail
  have hrun : Run cfg env = .error e := by
    unfold Run
    rw [hsel]
    exact he
  exact ⟨⟨e, hrun⟩, fun rs hok => by rw [hrun] at hok; exact Except.noConfusion hok⟩

/-- A single-server run of three rounds whose second download fails. -/
def failServer : GoServer :=
  { id := "9", name := "S", country := "DE", distance := 0, latency := 5, jitter := 1 }

/-- Config for the failing-round scenario: three rounds, single server. -/
def failCfg : Config :=
  { ServerIDs := [], SkipDownload := false, SkipUpload := false,
    MeasurementCount := 3, MeasurementStrategy := "single-server" }

/-- Environment for the failing-round scenario: round 1 succeeds, round
2's download fails. -/
def failEnv : Env :=
  { fetchServers := .ok [failServer],
    findServer := fun _ => .error "unused",
    download := fun i _ => if i = 1 then .error "network error" else .ok 80,
    upload := fun _ _ => .ok 40 }

/-- C1 witness: in the concrete three-round run whose second download
fails, `Run` returns an error and no results. -/
theorem run_fail_fast_witness :
    (∃ e, Run failCfg failEnv = .error e) ∧ ∀ rs, Run failCfg failEnv ≠ .ok rs :=
  @run_fail_fast failCfg failEnv [failServer] [] 1 rfl (by decide) rfl

theorem runRound_index {cfg : Config} {env : Env} {servers : List GoServer}
    {i : Nat} {r : Result} (h : runRound cfg env servers i = .ok r) :
    r.MeasurementIndex = i + 1 := by
  unfold runRound at h
  repeat' split at h
  all_goals simp at h
  all_goals subst h
  all_goals rfl

theorem runRounds_ok {cfg : Config} {env : Env} {servers : List GoServer} :
    ∀ {is : List Nat} {rs : List Result},
      runRounds cfg env servers is = .ok rs →
      rs.length = is.length ∧
        ∀ k (hk : k < rs.length) (hk2 : k < is.length),
          (rs.get ⟨k, hk⟩).MeasurementIndex = is.get ⟨k, hk2⟩ + 1 := by
  intro is
  induction is with
  | nil =>
    intro rs h
    unfold runRounds at h
    simp only [Except.ok.injEq] at h
    subst h
    exact ⟨rfl, fun k hk hk2 => absurd hk (by simp)⟩
  | cons j rest ih =>
    intro rs h
    unfold runRounds at h
    cases hr : runRound cfg env servers j with
    | error e => rw [hr] at h; exact absurd h (by simp)
    | ok result =>
      rw [hr] at h
      cases hrest : runRounds cfg env servers rest with
      | error e => rw [hrest] at h; exact absurd h (by simp)
      | ok results =>
        rw [hrest] at h
        simp only [Except.ok.injEq] at h
        subst h
        obtain ⟨hlen, hidx⟩ := ih hrest
        refine ⟨by simp [hlen], fun k hk hk2 => ?_⟩
        cases k with
        | zero => simpa using runRound_index hr
        | succ k2 =>
          simp only [List.get_cons_succ]
          exact hidx k2 (by simpa using hk) (by simpa using hk2)

/-- C8: every successful run returns exactly `MeasurementCount` results,
and the result at (0-based) position `k` carries `MeasurementIndex`
`k + 1` — indices are 1-based, strictly increasing, and match execution
order. -/
theorem run_results_indexed {cfg : Config} {env : Env} {rs : List Result}
    (h : Run cfg env = .ok rs) :
    rs.length = cfg.MeasurementCount ∧
      ∀ k (hk : k < rs.length), (rs.get ⟨k, hk⟩).MeasurementIndex = k + 1 := by
  unfold Run at h
  cases hsel : selectServers cfg env with
  | error e => rw [hsel] at h; exact absurd h (by simp)
  | ok sw =>
    rw [hsel] at h
    obtain ⟨hlen, hidx⟩ := runRounds_ok h
    have hlen2 : rs.length = cfg.MeasurementCount := by
      simpa using hlen
    refine ⟨hlen2, fun k hk => ?_⟩
    have hk2 : k < (List.range cfg.MeasurementCount).length := by
      simpa using hlen2 ▸ hk
    have := hidx k hk hk2
    simpa [List.getElem_range] using this

/-- An all-successful environment over the single failing-scenario
server. -/
def okEnv : Env :=
  { fetchServers := .ok [failServer],
    findServer := fun _ => .error "unused",
    download := fun _ _ => .ok 80,
    upload := fun _ _ => .ok 40 }

/-- The result of round `n` (1-based index) in the all-successful
scenario. -/
def okResult (n : Nat) : Result :=
  { Server := { id := "9", name := "S", country := "DE", distance := 0 },
    DownloadMbps := 80, UploadMbps := 40, Duration := 0, Latency := 5,
    Jitter := 1, MeasurementIndex := n }

/-- C8 witness: the concrete three-round successful run returns three
results indexed 1, 2, 3. -/
theorem run_results_indexed_witness :
    ∃ rs, Run failCfg okEnv = .ok rs ∧
      (rs.length = failCfg.MeasurementCount ∧
        ∀ k (hk : k < rs.length), (rs.get ⟨k, hk⟩).MeasurementIndex = k + 1) := by
  have h : Run failCfg okEnv = .ok [okResult 1, okResult 2, okResult 3] := by rfl
  exact ⟨_, h, run_results_indexed h⟩

/-- A catalog server with the higher latency estimate, listed first. -/
def serverHi : GoServer :=
  { id := "1", name := "A", country := "DE", distance := 0, latency := 30, jitter := 2 }

/-- A catalog server with the lower latency estimate, listed second. -/
def serverLo : GoServer :=
  { id := "2", name := "B", country := "DE", distance := 0, latency := 10, jitter := 3 }

/-- Multi-server config requesting 5 measurements with no pinned IDs. -/
def cfgWrap : Config :=
  { ServerIDs := [], SkipDownload := false, SkipUpload := false,
    MeasurementCount := 5, MeasurementStrategy := "multi-server" }

/-- A two-server catalog with every measurement succeeding. -/
def envWrap : Env :=
  { fetchServers := .ok [serverHi, serverLo],
    findServer := fun _ => .error "unused",
    download := fun _ _ => .ok 100,
    upload := fun _ _ => .ok 50 }

/-- The result of round `n` (1-based) against server `s` in the
`envWrap` environment. -/
def wrapResult (s : GoServer) (n : Nat) : Result :=
  { Server := { id := s.id, name := s.name, country := s.country, distance := s.distance },
    DownloadMbps := 100, UploadMbps := 50, Duration := 0, Latency := s.latency,
    Jitter := s.jitter, MeasurementIndex := n }

/-- C2: with the multi-server strategy, no pins, a catalog of 2 servers
and a measurement count of 5, selection succeeds with a non-fatal warning,
the per-round plan wraps around the two available servers in lowest-latency
order (`round i` uses `servers[i mod 2]`, i.e. lo, hi, lo, hi, lo), and the
run completes successfully with 5 results. -/
theorem multiServer_wraparound :
    selectServers cfgWrap envWrap = .ok ([serverLo, serverHi], [shortfallWarning]) ∧
      roundPlan cfgWrap [serverLo, serverHi] 5 =
        [some serverLo, some serverHi, some serverLo, some serverHi, some serverLo] ∧
      Run cfgWrap envWrap =
        .ok [wrapResult serverLo 1, wrapResult serverHi 2, wrapResult serverLo 3,
             wrapResult serverHi 4, wrapResult serverLo 5] :=
  ⟨by rfl, by rfl, by rfl⟩

/-- Single-server config with no pinned IDs over the same catalog. -/
def cfgFirst : Config :=
  { ServerIDs := [], SkipDownload := false, SkipUpload := false,
    MeasurementCount := 2, MeasurementStrategy := "single-server" }

/-- C4 counterexample: in single-server mode with no pins over the catalog
`[serverHi, serverLo]`, selection returns the *first* catalog server
(latency 30) even though the catalog contains a strictly lower-latency
server (latency 10) — so the claim that the single lowest-latency server
is selected is false at this input. -/
theorem singleServer_lowest_latency_cx :
    envWrap.fetchServers = .ok [serverHi, serverLo] ∧
      selectServers cfgFirst envWrap = .ok ([serverHi], []) ∧
      ∃ y ∈ [serverHi, serverLo], y.latency < serverHi.latency :=
  ⟨rfl, by rfl, ⟨serverLo, by simp, by decide⟩⟩

/-- C4 (amended): in single-server mode with no pins and a non-empty
catalog, selection returns exactly one server — the first server of the
catalog in catalog order (the latency sort is applied only in multi-server
mode) — and every round of the plan reuses that same server. -/
theorem singleServer_first_server {cfg : Config} {env : Env}
    {catalog : List GoServer}
    (hstrat : cfg.MeasurementStrategy = MeasurementStrategySingleServer)
    (hids : cfg.ServerIDs = [])
    (hfetch : env.fetchServers = .ok catalog)
    (hne : catalog ≠ []) :
    selectServers cfg env = .ok (catalog.take 1, []) ∧
      catalog.take 1 = [catalog.head hne] ∧
      ∀ i, serverForRound cfg (catalog.take 1) i = some (catalog.head hne) := by
  cases catalog with
  | nil => exact absurd rfl hne
  | cons a t =>
    have hmulti : ¬(cfg.MeasurementStrategy = MeasurementStrategyMultiServer) := by
      rw [hstrat]; decide
    refine ⟨?_, by simp, ?_⟩
    · unfold selectServers
      rw [hfetch]
      simp only [hids, List.length_nil, gt_iff_lt, lt_self_iff_false, if_false,
        hmulti, List.length_cons, if_neg, hstrat, if_pos]
      simp [MeasurementStrategySingleServer, MeasurementStrategyMultiServer]
    · intro i
      unfold serverForRound
      rw [if_pos hstrat]
      simp

/-- C4 witness for the amended claim: over the concrete catalog
`[serverHi, serverLo]`, single-server selection returns the first catalog
server and every round reuses it. -/
theorem singleServer_first_server_witness :
    selectServers cfgFirst envWrap = .ok ([serverHi, serverLo].take 1, []) ∧
      ([serverHi, serverLo].take 1 = [([serverHi, serverLo]).head (by simp)]) ∧
      ∀ i, serverForRound cfgFirst ([serverHi, serverLo].take 1) i =
        some (([serverHi, serverLo]).head (by simp)) :=
  singleServer_first_server rfl rfl rfl (by simp)

theorem length_goInsert (x : GoServer) (s : List GoServer) :
    (goInsert x s).length = s.length + 1 := by
  induction s with
  | nil => rfl
  | cons y ys ih =>
    unfold goInsert
    split
    · simp
    · simp [ih]

theorem mem_goInsert {z x : GoServer} {s : List GoServer} :
    z ∈ goInsert x s ↔ z = x ∨ z ∈ s := by
  induction s with
  | nil => simp [goInsert]
  | cons y ys ih =>
    unfold goInsert
    split
    · simp [or_comm, or_left_comm]
    · simp [ih, or_left_comm]

theorem goInsert_perm (x : GoServer) (s : List GoServer) :
    (goInsert x s).Perm (x :: s) := by
  induction s with
  | nil => rfl
  | cons y ys ih =>
    unfold goInsert
    split
    · exact List.Perm.refl _
    · exact (ih.cons y).trans (List.Perm.swap x y ys)

theorem goInsert_sorted {x : GoServer} {s : List GoServer}
    (hs : s.Sorted latLe) : (goInsert x s).Sorted latLe := by
  induction s with
  | nil => simp [goInsert, List.Sorted]
  | cons y ys ih =>
    rw [List.sorted_cons] at hs
    obtain ⟨hy, hys⟩ := hs
    by_cases hxy : x.latency < y.latency
    · rw [goInsert, if_pos hxy, List.sorted_cons]
      refine ⟨fun b hb => ?_, List.sorted_cons.mpr ⟨hy, hys⟩⟩
      rcases List.mem_cons.mp hb with hb | hb
      · rw [hb]
        unfold latLe
        omega
      · have := hy b hb
        unfold latLe at this ⊢
        omega
    · rw [goInsert, if_neg hxy, List.sorted_cons]
      refine ⟨fun b hb => ?_, ih hys⟩
      rcases mem_goInsert.mp hb with hb | hb
      · rw [hb]
        unfold latLe
        omega
      · exact hy b hb

theorem goInsert_append_last {x y : GoServer} (s : List GoServer)
    (h : x.latency < y.latency) :
    goInsert x (s ++ [y]) = goInsert x s ++ [y] := by
  induction s with
  | nil => simp [goInsert, h]
  | cons z zs ih =>
    by_cases hxz : x.latency < z.latency
    · simp [goInsert, hxz]
    · simp [goInsert, hxz, ih]

theorem goInsert_eq_append {x : GoServer} {s : List GoServer}
    (h : ∀ z ∈ s, ¬(x.latency < z.latency)) :
    goInsert x s = s ++ [x] := by
  induction s with
  | nil => rfl
  | cons y ys ih =>
    unfold goInsert
    rw [if_neg (h y (List.mem_cons_self y ys))]
    simp [ih fun z hz => h z (List.mem_cons_of_mem y hz)]

theorem filter_goInsert (v : Int) {x : GoServer} {s : List GoServer}
    (hs : s.Sorted latLe) :
    (goInsert x s).filter (fun z => z.latency == v) =
      if x.latency = v then (s.filter fun z => z.latency == v) ++ [x]
      else s.filter fun z => z.latency == v := by
  induction s with
  | nil =>
    by_cases hv : x.latency = v <;> simp [goInsert, hv]
  | cons y ys ih =>
    rw [List.sorted_cons] at hs
    obtain ⟨hy, hys⟩ := hs
    unfold goInsert
    split
    · have hlt : x.latency < y.latency := by assumption
      by_cases hv : x.latency = v
      · have hnil : (y :: ys).filter (fun z => z.latency == v) = [] := by
          rw [List.filter_eq_nil_iff]
          intro z hz
          rcases List.mem_cons.mp hz with hz | hz
          · subst hz; simp; omega
          · have := hy z hz
            unfold latLe at this
            simp
            omega
        rw [List.filter_cons, hnil]
        simp [hv, hnil]
      · rw [List.filter_cons]
        simp [hv]
    · have hgt : ¬(x.latency < y.latency) := by assumption
      rw [List.filter_cons, ih hys, List.filter_cons]
      by_cases hv : x.latency = v <;> by_cases hyv : y.latency = v <;>
        simp [hv, hyv]

theorem goFold_sorted : ∀ (rest acc : List GoServer), acc.Sorted latLe →
    (rest.foldl (fun acc x => goInsert x acc) acc).Sorted latLe
  | [], _, h => h
  | x :: rest, acc, h =>
    goFold_sorted rest (goInsert x acc) (goInsert_sorted h)

theorem goFold_perm : ∀ (rest acc : List GoServer),
    (rest.foldl (fun acc x => goInsert x acc) acc).Perm (acc ++ rest)
  | [], acc => by simp
  | x :: rest, acc => by
    rw [List.foldl_cons]
    refine (goFold_perm rest (goInsert x acc)).trans ?_
    have h1 : (goInsert x acc ++ rest).Perm ((x :: acc) ++ rest) :=
      (goInsert_perm x acc).append_right rest
    refine h1.trans ?_
    simpa using List.perm_middle.symm

theorem goFold_filter (v : Int) : ∀ (rest acc : List GoServer),
    acc.Sorted latLe →
    (rest.foldl (fun acc x => goInsert x acc) acc).filter
        (fun z => z.latency == v) =
      (acc.filter fun z => z.latency == v) ++ rest.filter fun z => z.latency == v
  | [], acc, _ => by simp
  | x :: rest, acc, h => by
    rw [List.foldl_cons, goFold_filter v rest (goInsert x acc) (goInsert_sorted h),
      filter_goInsert v h, List.filter_cons]
    by_cases hv : x.latency = v <;> simp [hv]

theorem goInsertionSortL_sorted (l : List GoServer) :
    (goInsertionSortL l).Sorted latLe :=
  goFold_sorted l [] List.sorted_nil

theorem goInsertionSortL_perm (l : List GoServer) :
    (goInsertionSortL l).Perm l := by
  simpa using goFold_perm l []

theorem goInsertionSortL_filter (v : Int) (l : List GoServer) :
    (goInsertionSortL l).filter (fun z => z.latency == v) =
      l.filter fun z => z.latency == v := by
  simpa using goFold_filter v l [] List.sorted_nil

theorem getElem?_middle (p : List GoServer) (x : GoServer) (t : List GoServer) :
    (p ++ x :: t)[p.length]? = some x := by
  rw [List.getElem?_append_right (le_refl p.length)]
  simp

theorem getElem?_middle_succ (p : List GoServer) (y x : GoServer)
    (t : List GoServer) :
    (p ++ y :: x :: t)[p.length + 1]? = some x := by
  rw [List.getElem?_append_right (by omega : p.length ≤ p.length + 1)]
  simp

theorem goLess_adjacent (p : List GoServer) (y x : GoServer) (t : List GoServer) :
    goLess (p ++ y :: x :: t) (p.length + 1) p.length =
      decide (x.latency < y.latency) := by
  unfold goLess
  rw [getElem?_middle_succ, getElem?_middle]

theorem goSwap_adjacent (p : List GoServer) (y x : GoServer) (t : List GoServer) :
    goSwap (p ++ y :: x :: t) (p.length + 1) p.length = p ++ x :: y :: t := by
  unfold goSwap
  rw [getElem?_middle_succ, getElem?_middle]
  show ((p ++ y :: x :: t).set (p.length + 1) y).set p.length x = p ++ x :: y :: t
  rw [List.set_append, if_neg (by omega)]
  rw [List.set_append, if_neg (by omega)]
  simp

theorem insertionSortInner_spec (s : List GoServer) :
    s.Sorted latLe → ∀ (x : GoServer) (rest : List GoServer),
      insertionSortInner 0 s.length (s ++ x :: rest) = goInsert x s ++ rest := by
  induction s using List.reverseRecOn with
  | nil =>
    intro _ x rest
    simp [insertionSortInner, goInsert]
  | append_singleton s0 y ih =>
    intro hsorted x rest
    have hs0 : s0.Sorted latLe := (List.pairwise_append.mp hsorted).1
    have hzy : ∀ z ∈ s0, z.latency ≤ y.latency := fun z hz =>
      (List.pairwise_append.mp hsorted).2.2 z hz y (List.mem_singleton_self y)
    have hlist : (s0 ++ [y]) ++ x :: rest = s0 ++ y :: x :: rest := by simp
    have hlen : (s0 ++ [y]).length = s0.length + 1 := by simp
    rw [hlist, hlen, insertionSortInner]
    by_cases hxy : x.latency < y.latency
    · rw [if_pos ⟨by omega, by rw [goLess_adjacent]; exact decide_eq_true hxy⟩,
        goSwap_adjacent, ih hs0 x (y :: rest), goInsert_append_last s0 hxy]
      simp
    · rw [if_neg fun hc => hxy (of_decide_eq_true (goLess_adjacent s0 y x rest ▸ hc.2))]
      rw [goInsert_eq_append]
      · simp
      · intro z hz
        rcases List.mem_append.mp hz with hz | hz
        · have := hzy z hz
          omega
        · rw [List.mem_singleton.mp hz]
          exact hxy

theorem insertionSortLoop_spec (rest : List GoServer) :
    ∀ (pre : List GoServer) (fuel : Nat), pre.Sorted latLe →
      rest.length ≤ fuel →
      insertionSortLoop 0 (pre.length + rest.length) fuel pre.length (pre ++ rest) =
        rest.foldl (fun acc x => goInsert x acc) pre := by
  induction rest with
  | nil =>
    intro pre fuel _ _
    cases fuel with
    | zero => simp [insertionSortLoop]
    | succ f => simp [insertionSortLoop]
  | cons x rest ih =>
    intro pre fuel hs hf
    have hf2 : rest.length + 1 ≤ fuel := by simpa using hf
    cases fuel with
    | zero => omega
    | succ f =>
      simp only [insertionSortLoop, List.length_cons]
      rw [if_pos (by omega : pre.length < pre.length + (rest.length + 1)),
        insertionSortInner_spec pre hs x rest]
      have h1 : (goInsert x pre).length = pre.length + 1 := length_goInsert x pre
      have hb : pre.length + (rest.length + 1) = (goInsert x pre).length + rest.length := by
        omega
      have hi : pre.length + 1 = (goInsert x pre).length := h1.symm
      rw [hb, hi, ih (goInsert x pre) f (goInsert_sorted hs) (by omega),
        List.foldl_cons]

theorem insertionSortFunc_eq (l : List GoServer) :
    insertionSortFunc l 0 l.length = goInsertionSortL l := by
  cases l with
  | nil => rfl
  | cons h t =>
    have hspec := insertionSortLoop_spec t [h] (t.length + 1)
      (List.sorted_singleton h) (by omega)
    simp only [List.length_singleton, List.singleton_append] at hspec
    rw [Nat.add_comm 1 t.length] at hspec
    unfold insertionSortFunc
    simp only [List.length_cons, Nat.zero_add]
    rw [hspec]
    simp [goInsertionSortL, goInsert]

theorem goSortSlice_short {l : List GoServer} (h12 : l.length ≤ 12) :
    goSortSlice l = goInsertionSortL l := by
  unfold goSortSlice
  simp only [pdqsortAux]
  rw [if_pos (by simpa using h12)]
  exact insertionSortFunc_eq l

theorem sortServersByLatency_short {l : List GoServer} (h12 : l.length ≤ 12) :
    sortServersByLatency l = goInsertionSortL l :=
  goSortSlice_short h12

/-- A catalog server with an explicit id and latency. -/
def cxServer (id : String) (lat : Int) : GoServer :=
  { id := id, name := "S" ++ id, country := "DE", distance := 0,
    latency := lat, jitter := 0 }

/-- A 13-server catalog (large enough that `sort.Slice` leaves its
insertion-sort path) with four servers tied at latency 70, in catalog
order `"2", "4", "7", "10"`. -/
def cxCatalog : List GoServer :=
  [cxServer "0" 50, cxServer "1" 10, cxServer "2" 70, cxServer "3" 30,
   cxServer "4" 70, cxServer "5" 20, cxServer "6" 40, cxServer "7" 70,
   cxServer "8" 25, cxServer "9" 60, cxServer "10" 70, cxServer "11" 15,
   cxServer "12" 35]

/-- Multi-server config requesting 13 measurements, no pins. -/
def cfgCx : Config :=
  { ServerIDs := [], SkipDownload := false, SkipUpload := false,
    MeasurementCount := 13, MeasurementStrategy := "multi-server" }

/-- Environment serving `cxCatalog`. -/
def envCx : Env :=
  { fetchServers := .ok cxCatalog,
    findServer := fun _ => .error "unused",
    download := fun _ _ => .ok 100,
    upload := fun _ _ => .ok 50 }

/-- What selection returns on `cxCatalog`: ascending latency, but the
latency-70 class comes out as `"7", "10", "4", "2"` — not catalog
order. -/
def cxSelected : List GoServer :=
  [cxServer "1" 10, cxServer "11" 15, cxServer "5" 20, cxServer "8" 25,
   cxServer "3" 30, cxServer "12" 35, cxServer "6" 40, cxServer "0" 50,
   cxServer "9" 60, cxServer "7" 70, cxServer "10" 70, cxServer "4" 70,
   cxServer "2" 70]

/-- C3 counterexample: at a concrete 13-server catalog (multi-server
strategy, no pins, `measurementCount = 13 ≤` catalog size) the selection
is ascending in latency, but the four servers tied at latency 70 come out
in the order `"7", "10", "4", "2"` instead of their catalog order
`"2", "4", "7", "10"`: `sort.Slice`'s pdqsort partition reorders equal
elements, so ties are *not* broken by catalog order and the claimed
stable-sort behavior fails. -/
theorem multiServer_stable_tie_cx :
    cfgCx.MeasurementStrategy = MeasurementStrategyMultiServer ∧
      cfgCx.ServerIDs = [] ∧
      envCx.fetchServers = .ok cxCatalog ∧
      cfgCx.MeasurementCount ≤ cxCatalog.length ∧
      selectServers cfgCx envCx = .ok (cxSelected, []) ∧
      (cxCatalog.filter fun s => s.latency == 70) =
        [cxServer "2" 70, cxServer "4" 70, cxServer "7" 70, cxServer "10" 70] ∧
      (cxSelected.filter fun s => s.latency == 70) =
        [cxServer "7" 70, cxServer "10" 70, cxServer "4" 70, cxServer "2" 70] ∧
      ¬∃ t, (cxCatalog.filter fun s => s.latency == 70) =
          (cxSelected.filter fun s => s.latency == 70) ++ t := by
  refine ⟨rfl, rfl, rfl, by decide, by rfl, by rfl, by rfl, ?_⟩
  rintro ⟨t, ht⟩
  rw [show (cxCatalog.filter fun s => s.latency == 70) =
      [cxServer "2" 70, cxServer "4" 70, cxServer "7" 70, cxServer "10" 70] from rfl,
    show (cxSelected.filter fun s => s.latency == 70) =
      [cxServer "7" 70, cxServer "10" 70, cxServer "4" 70, cxServer "2" 70] from rfl] at ht
  simp [cxServer] at ht

/-- C3 (amended): with the multi-server strategy, no pinned IDs, and a
catalog of at least `MeasurementCount` but at most 12 servers — the sizes
at which Go's `sort.Slice` runs its stable insertion-sort path — selection
succeeds without warnings and returns exactly `MeasurementCount` servers,
sorted by ascending latency estimate, consisting of the lowest-latency
servers of the catalog (every unselected server has latency at least that
of every selected one), with latency ties resolved in catalog order (each
latency class of the selection is a prefix of that class in the catalog).
For larger catalogs `sort.Slice` switches to an unstable pdqsort and tie
order is not preserved (see the counterexample). -/
theorem multiServer_ranking {cfg : Config} {env : Env} {catalog : List GoServer}
    (hstrat : cfg.MeasurementStrategy = MeasurementStrategyMultiServer)
    (hids : cfg.ServerIDs = [])
    (hfetch : env.fetchServers = .ok catalog)
    (hpos : 0 < cfg.MeasurementCount)
    (hcount : cfg.MeasurementCount ≤ catalog.length)
    (h12 : catalog.length ≤ 12) :
    ∃ result, selectServers cfg env = .ok (result, []) ∧
      result.length = cfg.MeasurementCount ∧
      List.Sorted latLe result ∧
      (∃ rest, catalog.Perm (result ++ rest) ∧
        ∀ x ∈ result, ∀ y ∈ rest, x.latency ≤ y.latency) ∧
      ∀ v : Int, ∃ t, catalog.filter (fun s => s.latency == v) =
        (result.filter fun s => s.latency == v) ++ t := by
  have hsorteq : sortServersByLatency catalog = goInsertionSortL catalog :=
    sortServersByLatency_short h12
  have hlensort : (goInsertionSortL catalog).length = catalog.length :=
    (goInsertionSortL_perm catalog).length_eq
  have hsingle : ¬(cfg.MeasurementStrategy = MeasurementStrategySingleServer) := by
    rw [hstrat]; decide
  have hlen : (sortServersByLatency catalog).length = catalog.length := by
    rw [hsorteq]; exact hlensort
  have hlenne : ¬((sortServersByLatency catalog).length = 0) := by omega
  have hnotgt : ¬(cfg.MeasurementCount > (sortServersByLatency catalog).length) := by
    omega
  refine ⟨(goInsertionSortL catalog).take cfg.MeasurementCount, ?_, ?_, ?_, ?_, ?_⟩
  · rw [← hsorteq]
    unfold selectServers
    rw [hfetch]
    simp only [hids, List.length_nil, gt_iff_lt, lt_self_iff_false, if_false, hstrat,
      if_pos, hsingle, if_neg, hlenne, hnotgt]
    simp [MeasurementStrategySingleServer, MeasurementStrategyMultiServer]
  · rw [List.length_take, hlensort]
    exact Nat.min_eq_left hcount
  · exact List.Pairwise.sublist
      (List.take_sublist cfg.MeasurementCount (goInsertionSortL catalog))
      (goInsertionSortL_sorted catalog)
  · refine ⟨(goInsertionSortL catalog).drop cfg.MeasurementCount, ?_, ?_⟩
    · rw [List.take_append_drop]
      exact (goInsertionSortL_perm catalog).symm
    · intro x hx y hy
      exact (goInsertionSortL_sorted catalog).rel_of_mem_take_of_mem_drop hx hy
  · intro v
    refine ⟨(goInsertionSortL catalog).drop cfg.MeasurementCount |>.filter
      fun s => s.latency == v, ?_⟩
    rw [← goInsertionSortL_filter v catalog, ← List.filter_append,
      List.take_append_drop]

/-- Catalog for the C3 witness: three servers, the two low-latency ones
tied at latency 10. -/
def rankCatalog : List GoServer :=
  [{ id := "1", name := "A", country := "DE", distance := 0, latency := 20, jitter := 1 },
   { id := "2", name := "B", country := "DE", distance := 0, latency := 10, jitter := 1 },
   { id := "3", name := "C", country := "DE", distance := 0, latency := 10, jitter := 1 }]

/-- Multi-server config requesting 2 measurements, no pins. -/
def cfgRank : Config :=
  { ServerIDs := [], SkipDownload := false, SkipUpload := false,
    MeasurementCount := 2, MeasurementStrategy := "multi-server" }

/-- Environment serving `rankCatalog`. -/
def envRank : Env :=
  { fetchServers := .ok rankCatalog,
    findServer := fun _ => .error "unused",
    download := fun _ _ => .ok 100,
    upload := fun _ _ => .ok 50 }

/-- C3 witness: the amended ranking theorem applied to the concrete
three-server catalog with a latency tie. -/
theorem multiServer_ranking_witness :
    ∃ result, selectServers cfgRank envRank = .ok (result, []) ∧
      result.length = cfgRank.MeasurementCount ∧
      List.Sorted latLe result ∧
      (∃ rest, rankCatalog.Perm (result ++ rest) ∧
        ∀ x ∈ result, ∀ y ∈ rest, x.latency ≤ y.latency) ∧
      ∀ v : Int, ∃ t, rankCatalog.filter (fun s => s.latency == v) =
        (result.filter fun s => s.latency == v) ++ t :=
  multiServer_ranking rfl rfl rfl (by decide) (by decide) (by decide)

/-- C5 witness: two pinned IDs under the single-server strategy are
rejected. -/
theorem validate_cardinality_witness :
    validateServerIDs ["1", "2"] MeasurementStrategySingleServer 2 ≠ none :=
  (validate_cardinality.1 ["1", "2"] MeasurementStrategySingleServer 2).mpr
    (Or.inl ⟨rfl, by decide⟩)

/-- C10 witness: a raw measurement count of `"0"` loads successfully with
count 1, exactly as `"1"` would. -/
theorem measurementCount_clamped_witness :
    (∃ cfg w, loadConfig "" "0" "" "" "" = .ok (cfg, w) ∧
        1 ≤ cfg.MeasurementCount) ∧
      loadConfig "" "0" "" "" "" = loadConfig "" "1" "" "" "" := by
  have hok : loadConfig "" "0" "" "" "" =
      .ok ({ ServerIDs := [], SkipDownload := false, SkipUpload := false,
             MeasurementCount := 1,
             MeasurementStrategy := MeasurementStrategySingleServer }, []) := by rfl
  exact ⟨⟨_, _, hok, measurementCount_clamped.1 "" "0" "" "" "" _ _ hok⟩,
    measurementCount_clamped.2 "0" 0 rfl (by decide) "" "" "" ""⟩

end Speedster
